import Mathlib

/-!
# Verification of the schemio scene-graph engine (`src/ui/scheme/SchemeContainer.js`)

This file gives a shallow embedding, over the reals, of the data model and the
operations of `SchemeContainer.js`, and settles the frozen claims C1..C10
against it.

Modelling conventions (each definition carries a comment citing the source
lines it embeds):
* JavaScript numbers are modelled by `ℝ`; the trigonometry of the source
  (`Math.cos`, `Math.sin` on degrees converted to radians) is modelled by
  `Real.cos` / `Real.sin` on the same expressions.
* Mutation is modelled by explicit state passing: a method that mutates the
  container returns the new container value.
* Object references handed out of `itemMap` are modelled by item ids: the map
  is keyed by `item.id`, so two looked-up references are the same object
  exactly when their ids coincide.  Item ids are unique in practice (they come
  from a fresh-id generator); theorems that need this state it as a `Nodup`
  hypothesis.
* `shortid.generate()` is modelled by an explicit supply of ids passed as an
  argument.
* Fields that no claim and no modelled operation ever reads (connector style
  attributes, `meta.hovered`, `meta.collapsed` / `meta.collapseBitMask`, the
  scheme style defaults of `enrichSchemeWithDefaults`) are omitted from the
  embedding; they are pure data carried along by the source and never branch.
-/

noncomputable section

namespace Schemio

/-- A 2-d point `{x, y}`. -/
structure Point where
  x : ℝ
  y : ℝ

/-- `item.area`: local geometry `{x, y, w, h, r}`, rotation `r` in degrees.
(`SchemeContainer.js` line 379 gives the default `{x:0, y:0, w:0, h:0, r:0}`.) -/
structure Area where
  x : ℝ
  y : ℝ
  w : ℝ
  h : ℝ
  r : ℝ

/-- An accumulated transform `{x, y, r}` as stored in `item.meta.transform`. -/
structure TransformT where
  x : ℝ
  y : ℝ
  r : ℝ

/-- `_zeroTransform` (line 30). -/
def zeroTransform : TransformT := { x := 0, y := 0, r := 0 }

/-- A reroute waypoint `{x, y, disabled}` of a connector (§3 of the spec;
`disabled` is read at line 450, absence of the flag being falsy). -/
structure Reroute where
  x : ℝ
  y : ℝ
  disabled : Bool

/-- Derived connector data `connector.meta` (only the fields the engine
reads/writes: `sourceItemId` and `points`, lines 435 and 476). -/
structure ConnMeta where
  sourceItemId : Option String
  points : List Point

/-- A connector owned by a source item.  `id = ""` models an absent/empty id
(line 431 treats both the same way).  Style attributes are defaulted visual
data never read by the engine and are not modelled. -/
structure Connector where
  id : String
  itemId : String
  reroutes : List Reroute
  meta : ConnMeta

/-- Derived item metadata `item.meta`, rebuilt by `reindexItems`
(lines 136-166).  `transform = none` models a missing `meta.transform`
(pre-reindex); `ancestorIds = []` likewise models an absent list.
The UI-only fields `collapsed`, `collapseBitMask` and `hovered` are carried
along by the source but never read by any modelled operation; they are
omitted. -/
structure Meta where
  transform : Option TransformT
  ancestorIds : List String
  parentId : Option String
  selected : Bool

/-- The default `meta` assigned to fresh items (lines 999-1002). -/
def Meta.fresh : Meta :=
  { transform := none, ancestorIds := [], parentId := none, selected := false }

/-- An item: a node of the ordered forest (§3 of the spec).  `area` is always
present, as guaranteed by `enrichItemWithDefaults` during every reindex;
`group`/`shape` model the optional string fields (`none` or `some ""` are the
falsy cases). -/
inductive Item where
  | mk (id : String) (area : Area) (group : Option String) (shape : Option String)
       (connectors : List Connector) (meta : Meta) (childItems : List Item)

def Item.id : Item → String
  | .mk i _ _ _ _ _ _ => i

def Item.area : Item → Area
  | .mk _ a _ _ _ _ _ => a

def Item.group : Item → Option String
  | .mk _ _ g _ _ _ _ => g

def Item.shape : Item → Option String
  | .mk _ _ _ s _ _ _ => s

def Item.connectors : Item → List Connector
  | .mk _ _ _ _ cs _ _ => cs

def Item.meta : Item → Meta
  | .mk _ _ _ _ _ m _ => m

def Item.childItems : Item → List Item
  | .mk _ _ _ _ _ _ ch => ch

/-- The scheme: the engine owns `scheme.items`, the root list of the forest. -/
structure Scheme where
  items : List Item

/-!
## Geometry kernel: `worldPointOnItem` and `localPointOnItem`
-/

/-- Degrees to radians, `r * Math.PI / 180` as written in the source. -/
def rad (degrees : ℝ) : ℝ := degrees * Real.pi / 180

/-- `worldPointOnItem(x, y, item)` (lines 183-204).  The `!item.area` guard of
lines 184-186 is not modelled: `area` is always present after defaulting (the
claims only concern items with an area).  The `item.meta && item.meta.transform`
fallback of lines 188-191 is the `Option.getD` below. -/
def worldPointOnItem (x y : ℝ) (item : Item) : Point :=
  let transform := item.meta.transform.getD zeroTransform
  let tAngle := rad transform.r
  let cosTA := Real.cos tAngle
  let sinTA := Real.sin tAngle
  let angle := rad (transform.r + item.area.r)
  let cosa := Real.cos angle
  let sina := Real.sin angle
  { x := transform.x + item.area.x * cosTA - item.area.y * sinTA + x * cosa - y * sina
    y := transform.y + item.area.x * sinTA + item.area.y * cosTA + x * sina + y * cosa }

/-- `localPointOnItem(x, y, item)` (lines 212-236), same conventions as
`worldPointOnItem`. -/
def localPointOnItem (x y : ℝ) (item : Item) : Point :=
  let transform := item.meta.transform.getD zeroTransform
  let tAngle := rad transform.r
  let cosTA := Real.cos tAngle
  let sinTA := Real.sin tAngle
  let angle := rad (transform.r + item.area.r)
  let cosa := Real.cos angle
  let sina := Real.sin angle
  let tx := transform.x + item.area.x * cosTA - item.area.y * sinTA
  let ty := transform.y + item.area.x * sinTA + item.area.y * cosTA
  { x := (y - ty) * sina + (x - tx) * cosa
    y := (y - ty) * cosa - (x - tx) * sina }

/-- C1: transform round trip.  For every item (any area, any reindexed
`meta.transform`) and every point `(x, y)`, `localPointOnItem` applied to
`worldPointOnItem(x, y, item)` returns exactly `(x, y)` — in particular within
the claimed `1e-6` tolerance. -/
theorem localPoint_worldPoint_roundtrip
    (idv : String) (a : Area) (g sh : Option String) (cs : List Connector)
    (t : TransformT) (anc : List String) (pid : Option String) (sel : Bool)
    (ch : List Item) (x y : ℝ) :
    let item : Item := .mk idv a g sh cs
      { transform := some t, ancestorIds := anc, parentId := pid, selected := sel } ch
    localPointOnItem (worldPointOnItem x y item).x (worldPointOnItem x y item).y item
        = { x := x, y := y } ∧
    |(localPointOnItem (worldPointOnItem x y item).x (worldPointOnItem x y item).y item).x
        - x| ≤ 1e-6 ∧
    |(localPointOnItem (worldPointOnItem x y item).x (worldPointOnItem x y item).y item).y
        - y| ≤ 1e-6 := by
  intro item
  have hpyth := Real.sin_sq_add_cos_sq (rad (t.r + a.r))
  have heq : localPointOnItem (worldPointOnItem x y item).x
      (worldPointOnItem x y item).y item = { x := x, y := y } := by
    simp only [localPointOnItem, worldPointOnItem, Item.meta, Item.area, Option.getD]
    refine congrArg₂ Point.mk ?_ ?_
    · linear_combination x * hpyth
    · linear_combination y * hpyth
  refine ⟨heq, ?_, ?_⟩ <;> rw [heq] <;> norm_num

/-!
## Scene index: flattening, `itemMap` lookup, reindex
-/

/-- Item updated with new child list (models mutating `item.childItems`). -/
def Item.withChildItems : Item → List Item → Item
  | .mk i a g sh cs m _, ch => .mk i a g sh cs m ch

/-- Item updated with a new area (models mutating `item.area`). -/
def Item.withArea : Item → Area → Item
  | .mk i _ g sh cs m ch, a => .mk i a g sh cs m ch

mutual

/-- Pre-order flattening of one item (itself, then its subtree), the order in
which `visitItems` (lines 32-55) visits and in which `_itemArray` is filled. -/
def flattenItem : Item → List Item
  | .mk i a g sh cs m ch => .mk i a g sh cs m ch :: flattenForest ch

/-- Pre-order flattening of a forest. -/
def flattenForest : List Item → List Item
  | [] => []
  | it :: rest => flattenItem it ++ flattenForest rest

end

/-- `findItemById` / `this.itemMap[id]` (lines 936-938, built at lines 159-161):
the map is filled in visitation order with `itemMap[item.id] = item`, so a
lookup returns the *last* pre-order item carrying the id.  The model derives
the map from the current tree; this is faithful between a reindex and the next
structural mutation, which is when the engine uses it. -/
def findItemById (items : List Item) (itemId : String) : Option Item :=
  (flattenForest items).reverse.find? (fun it => it.id == itemId)

theorem findItemById_id {items : List Item} {itemId : String} {it : Item}
    (h : findItemById items itemId = some it) : it.id = itemId := by
  have := List.find?_some h
  simpa using this

/-- `Array.prototype.splice(position, 0, item)`: inserts at `position`,
appending when `position` exceeds the length. -/
def spliceInsert (position : Nat) (a : Item) (l : List Item) : List Item :=
  l.take position ++ a :: l.drop position

/-- Rewrites, in place, the tree node carrying the given id (the object that
`findItemById` hands out; item ids are unique in practice, see the header).
Children of a rewritten node are handed to `f` untouched. -/
def updateById (i : String) (f : Item → Item) : List Item → List Item
  | [] => []
  | .mk id' a g sh cs m ch :: rest =>
    (if id' = i then f (.mk id' a g sh cs m ch)
     else .mk id' a g sh cs m (updateById i f ch)) :: updateById i f rest

/-- The traversal of `reindexItems` (lines 125-166) = `visitItems` (lines
32-55) with the indexing callback of lines 136-166: each item's
`meta.transform`, `meta.ancestorIds` and `meta.parentId` are re-derived, in
pre-order, from the accumulated transform; the child transform composes the
parent's transform with the item's local area (lines 48-52).
`meta.selected` is not touched by the callback and survives.  The collapse
bitmask bookkeeping (lines 145-149) is UI-only and omitted. -/
def reindexForest (transform : TransformT) (parentId : Option String)
    (ancestorIds : List String) : List Item → List Item
  | [] => []
  | .mk i a g sh cs m ch :: rest =>
    let cosa := Real.cos (rad transform.r)
    let sina := Real.sin (rad transform.r)
    let childT : TransformT :=
      { x := transform.x + a.x * cosa - a.y * sina
        y := transform.y + a.x * sina + a.y * cosa
        r := transform.r + a.r }
    Item.mk i a g sh cs
      { transform := some transform, ancestorIds := ancestorIds,
        parentId := parentId, selected := m.selected }
      (reindexForest childT (some i) (ancestorIds ++ [i]) ch)
    :: reindexForest transform parentId ancestorIds rest

/-- `reindexItems()` (lines 125-172).  Root items are visited with the zero
transform and no parent.  The second pass of the source (lines 168-170)
rebuilds `connector.meta` for the items owning connectors via `buildConnector`
and refills the container lookup maps; it touches no field outside
`connector.meta`, adds/removes no connector and no item, and is modelled by
`buildConnector` below.  The lookup maps are derived (`findItemById`), and the
revision counter is bookkeeping no claim mentions. -/
def reindexItems (s : Scheme) : Scheme :=
  { items := reindexForest zeroTransform none [] s.items }

/-!
## `remountItemInsideOtherItem` (lines 280-348)
-/

/-- `remountItemInsideOtherItem(itemId, otherItemId, position)` (lines
280-348), line by line: resolve the item (none → no-op) and the new parent
(`otherItemId` null → root, unresolvable → no-op); refuse when the item's id
occurs in the destination's `meta.ancestorIds` (lines 297-300); recompute the
local position so the world position is preserved (lines 302-309); accumulate
the rotation correction from the old parent chain minus the new one (lines
311-324, where a missing parent `meta.transform` — impossible after a reindex,
a TypeError in the source — is read as the zero transform to keep the model
total); remove the item from its old array, splice it in at `position`, apply
the corrected area and reindex (lines 326-347). -/
def remountItemInsideOtherItem (s : Scheme) (itemId : String)
    (otherItemId : Option String) (position : Nat) : Scheme :=
  match findItemById s.items itemId with
  | none => s
  | some item =>
    let otherRes : Option (Option Item) :=
      match otherItemId with
      | some oid =>
        (match findItemById s.items oid with
         | none => none
         | some o => some (some o))
      | none => some none
    match otherRes with
    | none => s
    | some otherItem =>
      if (match otherItem with
          | some o => o.meta.ancestorIds.contains item.id
          | none => false) then s
      else
        let worldPoint := worldPointOnItem 0 0 item
        let newLocalPoint : Point :=
          match otherItem with
          | some o => localPointOnItem worldPoint.x worldPoint.y o
          | none => worldPoint
        let parentRes : Option (Option Item) :=
          match item.meta.parentId with
          | some pid =>
            (match findItemById s.items pid with
             | none => none
             | some p => some (some p))
          | none => some none
        match parentRes with
        | none => s
        | some parentOpt =>
          let angleCorrection : ℝ :=
            (match parentOpt with
             | some p => (p.meta.transform.getD zeroTransform).r + p.area.r
             | none => 0)
            - (match otherItem with
               | some o =>
                 (match o.meta.transform with
                  | some t => t.r + o.area.r
                  | none => 0)
               | none => 0)
          let itemsArray : List Item :=
            match parentOpt with
            | some p => p.childItems
            | none => s.items
          match itemsArray.findIdx? (fun it => it.id == itemId) with
          | none => s
          | some index =>
            let removed : List Item :=
              match parentOpt with
              | some p =>
                updateById p.id
                  (fun par => par.withChildItems (par.childItems.eraseIdx index)) s.items
              | none => s.items.eraseIdx index
            let updatedItem := item.withArea
              { item.area with x := newLocalPoint.x, y := newLocalPoint.y,
                               r := item.area.r + angleCorrection }
            let inserted : List Item :=
              match otherItem with
              | some o =>
                updateById o.id
                  (fun oi => oi.withChildItems (spliceInsert position updatedItem oi.childItems))
                  removed
              | none => spliceInsert position updatedItem removed
            reindexItems { items := inserted }

/-- C3: cycle safety of remount.  If the remount destination `B` resolves to an
item whose `meta.ancestorIds` (as rebuilt by reindex) contains the id `A` of
the item being moved — i.e. `B` is a descendant of `A` — then
`remountItemInsideOtherItem(A, B, p)` returns the scheme unchanged: the cycle
guard of lines 297-300 fires before any mutation. -/
theorem remount_into_descendant_is_noop (s : Scheme) (A B : String) (p : Nat)
    (bItem : Item) (hfind : findItemById s.items B = some bItem)
    (hanc : A ∈ bItem.meta.ancestorIds) :
    remountItemInsideOtherItem s A (some B) p = s := by
  unfold remountItemInsideOtherItem
  cases hA : findItemById s.items A with
  | none => rfl
  | some aItem =>
    have haid : aItem.id = A := findItemById_id hA
    simp only [hfind, haid]
    have hc : bItem.meta.ancestorIds.contains A = true := by simpa using hanc
    rw [if_pos hc]

/-- A tiny concrete tree for the C3 witness: item `B` is a child of item `A`
(metas as a reindex writes them). -/
def c3Scheme : Scheme :=
  { items := [Item.mk "A" { x := 1, y := 2, w := 3, h := 4, r := 0 } none none []
      { transform := some zeroTransform, ancestorIds := [], parentId := none,
        selected := false }
      [Item.mk "B" { x := 5, y := 6, w := 7, h := 8, r := 0 } none none []
        { transform := some { x := 1, y := 2, r := 0 }, ancestorIds := ["A"],
          parentId := some "A", selected := false } []]] }

def c3ItemB : Item :=
  Item.mk "B" { x := 5, y := 6, w := 7, h := 8, r := 0 } none none []
    { transform := some { x := 1, y := 2, r := 0 }, ancestorIds := ["A"],
      parentId := some "A", selected := false } []

/-- Witness for C3 at a concrete two-item tree. -/
theorem remount_into_descendant_is_noop_witness :
    findItemById c3Scheme.items "B" = some c3ItemB ∧
    "A" ∈ c3ItemB.meta.ancestorIds ∧
    remountItemInsideOtherItem c3Scheme "A" (some "B") 0 = c3Scheme := by
  have h1 : findItemById c3Scheme.items "B" = some c3ItemB := by
    simp [findItemById, c3Scheme, c3ItemB, flattenForest, flattenItem, List.find?, Item.id]
  have h2 : "A" ∈ c3ItemB.meta.ancestorIds := by
    simp [c3ItemB, Item.meta]
  exact ⟨h1, h2, remount_into_descendant_is_noop c3Scheme "A" "B" 0 c3ItemB h1 h2⟩

/-!
## Connector router: `findEdgePoint` and `buildConnector`
-/

/-- Modelled from the spec: the shape outline provider (`Shape.js` and the SVG
path sampling used by `closestPointToSvgPath`, lines 499-536, are not under
`src/`; the DOM supplies `getPointAtLength`).  Per §4.3/§6 of the spec, a shape
either provides an outline — against which the router finds the closest point,
in the item's local coordinate space — or it does not.  `closestLocal` returns,
for an item whose shape has an outline, the closest-point-on-outline search in
local coordinates (the bisection of lines 509-533), and `none` for an item with
no outline path. -/
structure OutlineProvider where
  closestLocal : Item → Option (Point → Point)

/-- `findEdgePoint(item, nextPoint)` (lines 480-497): when the item's shape
provides an outline, delegate to the closest-point search — which, per
`closestPointToSvgPath` (lines 499-536), converts the target into local
coordinates (line 501), searches, and converts the winner back to world
coordinates (line 535).  Otherwise fall back to the centre of the item's
rectangle (lines 493-496). -/
def findEdgePoint (prov : OutlineProvider) (item : Item) (nextPoint : Point) : Point :=
  match prov.closestLocal item with
  | some closest =>
    let localPoint := localPointOnItem nextPoint.x nextPoint.y item
    let closestPoint := closest localPoint
    worldPointOnItem closestPoint.x closestPoint.y item
  | none => { x := item.area.x + item.area.w / 2, y := item.area.y + item.area.h / 2 }

/-- The reroute loop of lines 449-455: every reroute that is not disabled
contributes its `{x, y}` verbatim, in order; disabled reroutes contribute
nothing. -/
def reroutePoints : List Reroute → List Point
  | [] => []
  | r :: rs =>
    if r.disabled then reroutePoints rs else { x := r.x, y := r.y } :: reroutePoints rs

/-- `buildConnector(sourceItem, connector)` (lines 424-478).  `itemMap` is the
id lookup built by the last reindex (for a live container,
`findItemById` over the current tree); `genId` models `shortid.generate()`
(line 432, used when the connector has no id).  The routed points (lines
436-476): with reroutes present, the source edge point toward `reroutes[0]`,
then the enabled reroutes, then — when the destination resolves — the
destination edge point toward the *last* reroute; without reroutes, either the
two centre-directed edge points (destination resolved) or no points at all.
`meta.sourceItemId` is set to the owner's id (line 435).  The reverse-lookup
registration (`indexDestinationToSource`, line 442) and `connectorsMap`
insertion (line 477) maintain container-level derived maps no claim reads. -/
def buildConnector (prov : OutlineProvider) (itemMap : String → Option Item)
    (genId : String) (sourceItem : Item) (connector : Connector) : Connector :=
  let cid := if connector.id = "" then genId else connector.id
  let destinationItem := itemMap connector.itemId
  let points : List Point :=
    match connector.reroutes with
    | [] =>
      (match destinationItem with
       | some d =>
         [findEdgePoint prov sourceItem
            { x := d.area.x + d.area.w / 2, y := d.area.y + d.area.h / 2 },
          findEdgePoint prov d
            { x := sourceItem.area.x + sourceItem.area.w / 2,
              y := sourceItem.area.y + sourceItem.area.h / 2 }]
       | none => [])
    | r0 :: rest =>
      findEdgePoint prov sourceItem { x := r0.x, y := r0.y }
        :: (reroutePoints (r0 :: rest)
            ++ (match destinationItem with
                | some d =>
                  [findEdgePoint prov d
                     { x := ((r0 :: rest).getLast (by simp)).x,
                       y := ((r0 :: rest).getLast (by simp)).y }]
                | none => []))
  { id := cid, itemId := connector.itemId, reroutes := connector.reroutes,
    meta := { sourceItemId := some sourceItem.id, points := points } }

/-- C5: a dangling connector produces no points.  When the destination id does
not resolve in the item map and the reroutes list is empty, `buildConnector`
assigns the empty point list (and, being a total function, raises nothing). -/
theorem buildConnector_dangling_no_points (prov : OutlineProvider)
    (itemMap : String → Option Item) (genId : String) (src : Item) (c : Connector)
    (hdest : itemMap c.itemId = none) (hrer : c.reroutes = []) :
    (buildConnector prov itemMap genId src c).meta.points = [] := by
  simp [buildConnector, hdest, hrer]

def c5Source : Item :=
  Item.mk "src" { x := 1, y := 1, w := 10, h := 10, r := 0 } none none [] Meta.fresh []

def c5Conn : Connector :=
  { id := "c5", itemId := "ghost", reroutes := [], meta := { sourceItemId := none, points := [] } }

/-- Witness for C5: a concrete connector to an id no item carries. -/
theorem buildConnector_dangling_no_points_witness :
    (fun _ : String => (none : Option Item)) c5Conn.itemId = none ∧
    c5Conn.reroutes = [] ∧
    (buildConnector ⟨fun _ => none⟩ (fun _ => none) "gen" c5Source c5Conn).meta.points = [] :=
  ⟨rfl, rfl, buildConnector_dangling_no_points ⟨fun _ => none⟩ (fun _ => none) "gen"
    c5Source c5Conn rfl rfl⟩

/-- The reroute loop, closed form: the enabled reroutes, verbatim, in order. -/
theorem reroutePoints_eq_filter_map (l : List Reroute) :
    reroutePoints l
      = (l.filter (fun t => !t.disabled)).map (fun t => ({ x := t.x, y := t.y } : Point)) := by
  induction l with
  | nil => rfl
  | cons r rs ih =>
    by_cases hd : r.disabled <;> simp [reroutePoints, hd, ih]

/-- C6 (amended): routing with reroutes.  For a connector with a non-empty
reroutes list, the first routed point is the source edge point toward the
*first* reroute (enabled or not), the middle points are exactly the enabled
reroutes verbatim (disabled reroutes contribute no point), and — when the
destination resolves — the last point is the destination edge point toward the
*last* reroute (enabled or not). -/
theorem buildConnector_points_with_reroutes (prov : OutlineProvider)
    (itemMap : String → Option Item) (genId : String) (src : Item) (c : Connector)
    (r : Reroute) (rs : List Reroute) (h : c.reroutes = r :: rs) :
    (buildConnector prov itemMap genId src c).meta.points
      = findEdgePoint prov src { x := r.x, y := r.y }
        :: (((r :: rs).filter (fun t => !t.disabled)).map
              (fun t => ({ x := t.x, y := t.y } : Point))
            ++ (match itemMap c.itemId with
                | some d =>
                  [findEdgePoint prov d
                     { x := ((r :: rs).getLast (by simp)).x,
                       y := ((r :: rs).getLast (by simp)).y }]
                | none => [])) := by
  simp only [buildConnector, h, reroutePoints_eq_filter_map]

/-- A source item with an outline for the C6 counterexample: a horizontal line
through its local origin, whose closest point to a local target `(x, y)` is
`(x, 0)`. -/
def c6Source : Item :=
  Item.mk "s" { x := 0, y := 0, w := 10, h := 10, r := 0 } none (some "line") []
    { transform := some zeroTransform, ancestorIds := [], parentId := none,
      selected := false } []

def c6Prov : OutlineProvider :=
  ⟨fun it => if it.id = "s" then some (fun p => { x := p.x, y := 0 }) else none⟩

/-- A connector whose *first* reroute `(5, 7)` is disabled; its first enabled
reroute is `(11, 7)`. -/
def c6Conn : Connector :=
  { id := "c6", itemId := "missing",
    reroutes := [{ x := 5, y := 7, disabled := true }, { x := 11, y := 7, disabled := false }],
    meta := { sourceItemId := none, points := [] } }

/-- Counterexample to C6 as stated: with the first reroute disabled, the first
routed point is the source edge point toward that disabled reroute, `(5, 0)` —
not, as the claim says, the edge point toward the first *enabled* reroute,
which here is `(11, 0)`. -/
theorem buildConnector_first_point_ignores_disabled_flag :
    (buildConnector c6Prov (fun _ => none) "gen" c6Source c6Conn).meta.points.head?
        = some { x := 5, y := 0 } ∧
    findEdgePoint c6Prov c6Source { x := 11, y := 7 } = { x := 11, y := 0 } ∧
    ({ x := 5, y := 0 } : Point) ≠ ({ x := 11, y := 0 } : Point) := by
  refine ⟨?_, ?_, ?_⟩
  · simp [buildConnector, c6Conn, c6Source, c6Prov, findEdgePoint, localPointOnItem,
      worldPointOnItem, rad, zeroTransform, Item.meta, Item.area, Item.id]
  · simp [findEdgePoint, c6Source, c6Prov, localPointOnItem, worldPointOnItem, rad,
      zeroTransform, Item.meta, Item.area, Item.id]
  · intro hcontra
    have : (5 : ℝ) = 11 := congrArg Point.x hcontra
    norm_num at this

def c6ConnB : Connector :=
  { id := "c6b", itemId := "dst",
    reroutes := [{ x := 5, y := 7, disabled := true }, { x := 11, y := 7, disabled := false }],
    meta := { sourceItemId := none, points := [] } }

/-- Witness for the amended C6, at a connector with a disabled first reroute
and an unresolved destination. -/
theorem buildConnector_points_with_reroutes_witness :
    c6ConnB.reroutes
        = [{ x := 5, y := 7, disabled := true }, { x := 11, y := 7, disabled := false }] ∧
    (buildConnector c6Prov (fun _ => none) "gen" c6Source c6ConnB).meta.points
      = findEdgePoint c6Prov c6Source { x := 5, y := 7 }
        :: ((([({ x := 5, y := 7, disabled := true } : Reroute),
               { x := 11, y := 7, disabled := false }].filter (fun t => !t.disabled)).map
              (fun t => ({ x := t.x, y := t.y } : Point)))
            ++ []) := by
  refine ⟨rfl, ?_⟩
  have h := buildConnector_points_with_reroutes c6Prov (fun _ => none) "gen" c6Source c6ConnB
    { x := 5, y := 7, disabled := true } [{ x := 11, y := 7, disabled := false }] rfl
  simpa using h

/-!
## `connectItems` (lines 560-593)
-/

/-- Item updated with a new connector list (models mutating
`item.connectors`). -/
def Item.withConnectors : Item → List Connector → Item
  | .mk i a g sh _ m ch, cs => .mk i a g sh cs m ch

/-- The fresh connector literal of lines 571-588 (id from the generator,
destination id, no reroutes; the `style` block is visual data, not modelled;
`meta` is absent until `buildConnector` fills it). -/
def newConnectorFor (genId destId : String) : Connector :=
  { id := genId, itemId := destId, reroutes := [],
    meta := { sourceItemId := none, points := [] } }

/-- `connectItems(sourceItem, destinationItem)` (lines 560-593).  The JS guard
`sourceItem !== destinationItem` is reference inequality; the arguments are
items handed out of `itemMap`, which is keyed by id, so distinct references
have distinct ids — the guard is modelled as id inequality.  `id` truthiness
(`sourceItem.id && destinationItem.id`) is nonemptiness.  When no connector to
the destination exists yet, one is created, pushed, and built (lines 570-591);
otherwise nothing changes. -/
def connectItems (prov : OutlineProvider) (itemMap : String → Option Item)
    (genId : String) (sourceItem destinationItem : Item) : Item :=
  if sourceItem.id ≠ destinationItem.id ∧ sourceItem.id ≠ "" ∧ destinationItem.id ≠ "" then
    match sourceItem.connectors.find? (fun c => c.itemId == destinationItem.id) with
    | some _ => sourceItem
    | none =>
      let connector := newConnectorFor genId destinationItem.id
      sourceItem.withConnectors
        (sourceItem.connectors ++ [buildConnector prov itemMap genId sourceItem connector])
  else sourceItem

theorem Item.withConnectors_id (it : Item) (cs : List Connector) :
    (it.withConnectors cs).id = it.id := by
  cases it; rfl

theorem Item.withConnectors_connectors (it : Item) (cs : List Connector) :
    (it.withConnectors cs).connectors = cs := by
  cases it; rfl

/-- C10: `connectItems` is idempotent per (source, destination) pair and
rejects self-loops.  (i) `connectItems(S, S)` changes nothing; (ii) when the
source already owns a connector whose `itemId` is the destination's id,
nothing is added; (iii) starting from a source with no connector to `D`,
calling `connectItems(S, D)` twice leaves exactly one connector whose `itemId`
is `D.id` — so at most one connector per pair is ever created. -/
theorem connectItems_idempotent_no_self (prov : OutlineProvider)
    (itemMap : String → Option Item) (g g' : String) (s d : Item) :
    connectItems prov itemMap g s s = s ∧
    ((∃ c ∈ s.connectors, c.itemId = d.id) → connectItems prov itemMap g s d = s) ∧
    (s.connectors.countP (fun c => c.itemId == d.id) = 0 → s.id ≠ d.id → s.id ≠ "" →
      d.id ≠ "" →
      ((connectItems prov itemMap g' (connectItems prov itemMap g s d) d).connectors.countP
          (fun c => c.itemId == d.id)) = 1) := by
  refine ⟨?_, ?_, ?_⟩
  · simp [connectItems]
  · intro ⟨c, hc, hcid⟩
    have hfound : (s.connectors.find? (fun c => c.itemId == d.id)).isSome := by
      rw [List.find?_isSome]
      exact ⟨c, hc, by simp [hcid]⟩
    unfold connectItems
    split
    · cases hfind : s.connectors.find? (fun c => c.itemId == d.id) with
      | none => rw [hfind] at hfound; simp at hfound
      | some c' => simp [hfind]
    · rfl
  · intro hcount hne hs hd
    have hnone : s.connectors.find? (fun c => c.itemId == d.id) = none := by
      rw [List.find?_eq_none]
      intro c hc
      have := List.countP_eq_zero.mp hcount c hc
      simpa using this
    have hstep1 : connectItems prov itemMap g s d
        = s.withConnectors
            (s.connectors ++ [buildConnector prov itemMap g s (newConnectorFor g d.id)]) := by
      unfold connectItems
      rw [if_pos ⟨hne, hs, hd⟩, hnone]
    set s1 := s.withConnectors
      (s.connectors ++ [buildConnector prov itemMap g s (newConnectorFor g d.id)]) with hs1
    have hbuiltid : (buildConnector prov itemMap g s (newConnectorFor g d.id)).itemId = d.id := by
      simp [buildConnector, newConnectorFor]
    have hcount1 : s1.connectors.countP (fun c => c.itemId == d.id) = 1 := by
      rw [hs1, Item.withConnectors_connectors, List.countP_append, hcount]
      simp [List.countP, List.countP.go, hbuiltid]
    have hfound1 : (s1.connectors.find? (fun c => c.itemId == d.id)).isSome := by
      rw [List.find?_isSome]
      refine ⟨buildConnector prov itemMap g s (newConnectorFor g d.id), ?_, by simp [hbuiltid]⟩
      rw [hs1, Item.withConnectors_connectors]
      simp
    have hstep2 : connectItems prov itemMap g' s1 d = s1 := by
      unfold connectItems
      split
      · cases hfind : s1.connectors.find? (fun c => c.itemId == d.id) with
        | none => rw [hfind] at hfound1; simp at hfound1
        | some c' => simp [hfind]
      · rfl
    rw [hstep1, hstep2, hcount1]

def c10Src : Item :=
  Item.mk "s" { x := 0, y := 0, w := 1, h := 1, r := 0 } none none [] Meta.fresh []

def c10Dst : Item :=
  Item.mk "d" { x := 9, y := 9, w := 1, h := 1, r := 0 } none none [] Meta.fresh []

/-- Witness for C10 at two concrete items with no pre-existing connectors. -/
theorem connectItems_idempotent_no_self_witness :
    connectItems ⟨fun _ => none⟩ (fun _ => none) "g1" c10Src c10Src = c10Src ∧
    c10Src.connectors.countP (fun c => c.itemId == c10Dst.id) = 0 ∧
    ((connectItems ⟨fun _ => none⟩ (fun _ => none) "g2"
        (connectItems ⟨fun _ => none⟩ (fun _ => none) "g1" c10Src c10Dst)
        c10Dst).connectors.countP (fun c => c.itemId == c10Dst.id)) = 1 := by
  obtain ⟨h1, _, h3⟩ := connectItems_idempotent_no_self ⟨fun _ => none⟩ (fun _ => none)
    "g1" "g2" c10Src c10Dst
  refine ⟨h1, rfl, h3 rfl ?_ ?_ ?_⟩ <;> simp [c10Src, c10Dst, Item.id]

/-!
## `getBoundingBoxOfItems` (lines 238-278)
-/

/-- The rectangle `{x, y, w, h}` accumulated by `getBoundingBoxOfItems`. -/
structure Box where
  x : ℝ
  y : ℝ
  w : ℝ
  h : ℝ

/-- The per-point update of lines 252-274: a first point seeds a zero-size box;
a later point moves `x`/`y` down to it and stretches `w`/`h` up to it, each of
the four `if`s applied in source order.  (Line 271 reads
`point.y + - schemeBoundaryBox.y`, i.e. the difference.)  Note the source does
not compensate `w`/`h` when `x`/`y` decreases. -/
def boundingBoxFold (box : Option Box) (p : Point) : Option Box :=
  match box with
  | none => some { x := p.x, y := p.y, w := 0, h := 0 }
  | some b =>
    let b1 := if b.x > p.x then { b with x := p.x } else b
    let b2 := if b1.x + b1.w < p.x then { b1 with w := p.x - b1.x } else b1
    let b3 := if b2.y > p.y then { b2 with y := p.y } else b2
    let b4 := if b3.y + b3.h < p.y then { b3 with h := p.y - b3.y } else b3
    some b4

/-- The four world-space corner points of an item (lines 245-250). -/
def itemCornerPoints (item : Item) : List Point :=
  [worldPointOnItem 0 0 item,
   worldPointOnItem item.area.w 0 item,
   worldPointOnItem item.area.w item.area.h item,
   worldPointOnItem 0 item.area.h item]

/-- `getBoundingBoxOfItems(items)` (lines 238-278): `{0,0,0,0}` for an empty
list (lines 239-241), otherwise the fold of every item's four corners starting
from `null`. -/
def getBoundingBoxOfItems (items : List Item) : Option Box :=
  if items.length = 0 then some { x := 0, y := 0, w := 0, h := 0 }
  else items.foldl (fun acc item => (itemCornerPoints item).foldl boundingBoxFold acc) none

/-- A reindexed root item at `(10, 0)`, size `1 × 1`, unrotated. -/
def c8Item1 : Item :=
  Item.mk "i1" { x := 10, y := 0, w := 1, h := 1, r := 0 } none none []
    { transform := some zeroTransform, ancestorIds := [], parentId := none,
      selected := false } []

/-- A reindexed root item at `(0, 0)`, size `1 × 1`, unrotated. -/
def c8Item2 : Item :=
  Item.mk "i2" { x := 0, y := 0, w := 1, h := 1, r := 0 } none none []
    { transform := some zeroTransform, ancestorIds := [], parentId := none,
      selected := false } []

/-- C8 evaluated at the failing input: for the two items above, the box comes
out as `{x:0, y:0, w:1, h:1}` — when the second item pulls `box.x` from `10`
down to `0`, `box.w` is not compensated (lines 261-265), so the first item's
corner at world `x = 10` lies outside `[box.x, box.x + box.w] = [0, 1]`,
contradicting the claim that the box covers all four corners of every item. -/
theorem getBoundingBoxOfItems_misses_corner :
    getBoundingBoxOfItems [c8Item1, c8Item2] = some { x := 0, y := 0, w := 1, h := 1 } ∧
    (worldPointOnItem 0 0 c8Item1).x = 10 ∧
    ¬ ((worldPointOnItem 0 0 c8Item1).x ≤ (0 : ℝ) + 1) := by
  have hc : Real.cos (rad 0) = 1 := by simp [rad]
  have hs : Real.sin (rad 0) = 0 := by simp [rad]
  have hw1 : ∀ x y : ℝ, worldPointOnItem x y c8Item1 = { x := 10 + x, y := 0 + y } := by
    intro x y
    simp [worldPointOnItem, c8Item1, Item.meta, Item.area, zeroTransform, hc, hs]
  have hw2 : ∀ x y : ℝ, worldPointOnItem x y c8Item2 = { x := 0 + x, y := 0 + y } := by
    intro x y
    simp [worldPointOnItem, c8Item2, Item.meta, Item.area, zeroTransform, hc, hs]
  have hcor1 : itemCornerPoints c8Item1
      = [{ x := 10, y := 0 }, { x := 11, y := 0 }, { x := 11, y := 1 }, { x := 10, y := 1 }] := by
    simp only [itemCornerPoints, hw1]
    norm_num [c8Item1, Item.area]
  have hcor2 : itemCornerPoints c8Item2
      = [{ x := 0, y := 0 }, { x := 1, y := 0 }, { x := 1, y := 1 }, { x := 0, y := 1 }] := by
    simp only [itemCornerPoints, hw2]
    norm_num [c8Item2, Item.area]
  have step0 : boundingBoxFold none { x := 10, y := 0 }
      = some { x := 10, y := 0, w := 0, h := 0 } := rfl
  have step1 : boundingBoxFold (some { x := 10, y := 0, w := 0, h := 0 }) { x := 11, y := 0 }
      = some { x := 10, y := 0, w := 1, h := 0 } := by
    norm_num [boundingBoxFold]
  have step2 : boundingBoxFold (some { x := 10, y := 0, w := 1, h := 0 }) { x := 11, y := 1 }
      = some { x := 10, y := 0, w := 1, h := 1 } := by
    norm_num [boundingBoxFold]
  have step3 : boundingBoxFold (some { x := 10, y := 0, w := 1, h := 1 }) { x := 10, y := 1 }
      = some { x := 10, y := 0, w := 1, h := 1 } := by
    norm_num [boundingBoxFold]
  have step4 : boundingBoxFold (some { x := 10, y := 0, w := 1, h := 1 }) { x := 0, y := 0 }
      = some { x := 0, y := 0, w := 1, h := 1 } := by
    norm_num [boundingBoxFold]
  have step5 : boundingBoxFold (some { x := 0, y := 0, w := 1, h := 1 }) { x := 1, y := 0 }
      = some { x := 0, y := 0, w := 1, h := 1 } := by
    norm_num [boundingBoxFold]
  have step6 : boundingBoxFold (some { x := 0, y := 0, w := 1, h := 1 }) { x := 1, y := 1 }
      = some { x := 0, y := 0, w := 1, h := 1 } := by
    norm_num [boundingBoxFold]
  have step7 : boundingBoxFold (some { x := 0, y := 0, w := 1, h := 1 }) { x := 0, y := 1 }
      = some { x := 0, y := 0, w := 1, h := 1 } := by
    norm_num [boundingBoxFold]
  refine ⟨?_, ?_, ?_⟩
  · unfold getBoundingBoxOfItems
    rw [if_neg (by simp)]
    simp only [List.foldl]
    simp only [hw1, hw2]
    norm_num [c8Item1, c8Item2, Item.area]
    rw [step0, step1, step2, step3, step4, step5, step6, step7]
  · rw [hw1]; norm_num
  · rw [hw1]; norm_num

/-!
## `ungroupItem` (lines 955-964)
-/

/-- Item updated with a new group (models mutating `item.group`). -/
def Item.withGroup : Item → Option String → Item
  | .mk i a _ sh cs m ch, g => .mk i a g sh cs m ch

/-- `ungroupItem(item)` (lines 955-964).  When the item has a (truthy) group,
the source clears `item.group` (line 958) and then evaluates
`this.scheme.getItems()` (line 959).  `this.scheme` is the plain scheme data
handed to the constructor (lines 66-70; it is consumed as data throughout:
`scheme.style`, `scheme.items`) and has no `getItems` method — the container's
own `getItems()` (lines 686-688) was evidently intended — so line 959 throws a
TypeError and the leftover-group clearing of lines 960-962 is unreachable.
The model returns the state as mutated up to the throw, together with the
thrown error. -/
def ungroupItem (s : Scheme) (item : Item) : Scheme × Option String :=
  match item.group with
  | some g =>
    if g = "" then (s, none)
    else
      ({ items := updateById item.id (fun it => it.withGroup none) s.items },
       some "TypeError: this.scheme.getItems is not a function")
  | none => (s, none)

/-- Two root items sharing group `"g"`. -/
def c9Scheme : Scheme :=
  { items := [Item.mk "a" { x := 0, y := 0, w := 1, h := 1, r := 0 } (some "g") none []
      { transform := some zeroTransform, ancestorIds := [], parentId := none,
        selected := false } [],
    Item.mk "b" { x := 5, y := 0, w := 1, h := 1, r := 0 } (some "g") none []
      { transform := some zeroTransform, ancestorIds := [], parentId := none,
        selected := false } []] }

def c9ItemA : Item :=
  Item.mk "a" { x := 0, y := 0, w := 1, h := 1, r := 0 } (some "g") none []
    { transform := some zeroTransform, ancestorIds := [], parentId := none,
      selected := false } []

/-- C9 evaluated at the failing input: on a two-member group, `ungroupItem`
clears only the called item's group and then throws (`this.scheme.getItems` is
not a function); the second member keeps its group, contrary to the claim that
both are cleared without throwing. -/
theorem ungroupItem_throws_and_leaves_partner_grouped :
    (ungroupItem c9Scheme c9ItemA).2
        = some "TypeError: this.scheme.getItems is not a function" ∧
    ((findItemById (ungroupItem c9Scheme c9ItemA).1.items "a").map Item.group)
        = some none ∧
    ((findItemById (ungroupItem c9Scheme c9ItemA).1.items "b").map Item.group)
        = some (some "g") := by
  have hrun : (ungroupItem c9Scheme c9ItemA).1.items
      = [Item.mk "a" { x := 0, y := 0, w := 1, h := 1, r := 0 } none none []
          { transform := some zeroTransform, ancestorIds := [], parentId := none,
            selected := false } [],
        Item.mk "b" { x := 5, y := 0, w := 1, h := 1, r := 0 } (some "g") none []
          { transform := some zeroTransform, ancestorIds := [], parentId := none,
            selected := false } []] := by
    simp [ungroupItem, c9Scheme, c9ItemA, updateById, Item.withGroup, Item.group, Item.id]
  refine ⟨rfl, ?_, ?_⟩ <;>
    simp [hrun, findItemById, flattenForest, flattenItem, Item.group, Item.id, List.find?]

/-!
## Selection model (lines 718-797)
-/

/-- The container state the selection and clipboard operations act on: the
scheme tree, the ordered selection (`this.selectedItems`, a list of references
into the tree, modelled by item ids — the references come out of the id-keyed
`itemMap`), and the copy buffer (`this.copyBuffer`, holding the items captured
at copy time, lines 966-968). -/
structure Container where
  scheme : Scheme
  selectedItems : List String
  copyBuffer : List Item

mutual

/-- Writing `item.meta.selected = b` on the object that carries the given id:
every node carrying the id is rewritten (under unique ids, exactly the one
object the engine mutates); all other nodes, and every other field, are
untouched. -/
def setSelItem (i : String) (b : Bool) : Item → Item
  | .mk id' a g sh cs m ch =>
    .mk id' a g sh cs (if id' = i then { m with selected := b } else m)
      (setSelForest i b ch)

def setSelForest (i : String) (b : Bool) : List Item → List Item
  | [] => []
  | it :: rest => setSelItem i b it :: setSelForest i b rest

end

theorem setSelItem_id (i : String) (b : Bool) (it : Item) :
    (setSelItem i b it).id = it.id := by
  cases it; rfl

theorem setSelItem_group (i : String) (b : Bool) (it : Item) :
    (setSelItem i b it).group = it.group := by
  cases it; rfl

theorem setSelItem_selected (i : String) (b : Bool) (it : Item) :
    (setSelItem i b it).meta.selected
      = if it.id = i then b else it.meta.selected := by
  cases it with
  | mk id' a g sh cs m ch =>
    by_cases h : id' = i <;> simp [setSelItem, Item.meta, Item.id, h]

mutual

theorem flattenItem_setSelItem (i : String) (b : Bool) (it : Item) :
    flattenItem (setSelItem i b it) = (flattenItem it).map (setSelItem i b) := by
  cases it with
  | mk id' a g sh cs m ch =>
    simp only [setSelItem, flattenItem, List.map_cons]
    rw [flattenForest_setSelForest i b ch]

theorem flattenForest_setSelForest (i : String) (b : Bool) (l : List Item) :
    flattenForest (setSelForest i b l) = (flattenForest l).map (setSelItem i b) := by
  cases l with
  | nil => rfl
  | cons x rest =>
    simp only [setSelForest, flattenForest, List.map_append]
    rw [flattenItem_setSelItem i b x, flattenForest_setSelForest i b rest]

end

/-- Lookup through a flag write: the same item comes back, with the flag
applied. -/
theorem findItemById_setSelForest (i : String) (b : Bool) (l : List Item) (q : String) :
    findItemById (setSelForest i b l) q = (findItemById l q).map (setSelItem i b) := by
  unfold findItemById
  have hp : ((fun it : Item => it.id == q) ∘ setSelItem i b) = (fun it => it.id == q) := by
    funext it
    simp [setSelItem_id]
  rw [flattenForest_setSelForest, ← List.map_reverse, List.find?_map, hp]

/-- Flag writes do not disturb the id list of the tree. -/
theorem flattenForest_map_id_setSelForest (i : String) (b : Bool) (l : List Item) :
    (flattenForest (setSelForest i b l)).map Item.id = (flattenForest l).map Item.id := by
  rw [flattenForest_setSelForest, List.map_map]
  congr 1
  funext it
  simp [setSelItem_id]

/-- Root items occur in the flattened forest. -/
theorem mem_flattenForest_of_mem {it : Item} {l : List Item} (h : it ∈ l) :
    it ∈ flattenForest l := by
  induction h with
  | head rest =>
    cases it with
    | mk id' a g sh cs m ch => simp [flattenForest, flattenItem]
  | tail x hmem =>
    rename_i ih
    simp only [flattenForest, List.mem_append]
    exact Or.inr ih

/-- The sort key of `sortSelectedItemsByAncestors` (lines 772-786): the length
of `meta.ancestorIds`, defaulting to `0` when absent.  The source reads it off
the held references; the model reads it off the tree through the id. -/
def ancestorDepth (items : List Item) (sid : String) : Nat :=
  match findItemById items sid with
  | some it => it.meta.ancestorIds.length
  | none => 0

/-- `sortSelectedItemsByAncestors()` (lines 772-786): sorts the selection by
ascending ancestor depth.  `Array.prototype.sort` with the comparator
`la - lb` is a stable comparison sort; the engine depends only on the
ascending-depth ordering and the claims only on the membership, so a stable
insertion sort is a faithful model. -/
def sortSelectedItemsByAncestors (c : Container) : Container :=
  let sorted := c.selectedItems.insertionSort
    (fun a b => ancestorDepth c.scheme.items a ≤ ancestorDepth c.scheme.items b)
  { c with selectedItems := sorted }

/-- `selectItemInclusive(item)` (lines 754-770): push the item and set its
flag unless it is already in the selection (reference containment, modelled by
id containment), then re-sort by ancestor depth. -/
def selectItemInclusive (c : Container) (item : Item) : Container :=
  let c1 :=
    if c.selectedItems.contains item.id then c
    else
      { c with selectedItems := c.selectedItems ++ [item.id],
               scheme := { items := setSelForest item.id true c.scheme.items } }
  sortSelectedItemsByAncestors c1

/-- `selectItem(item, inclusive)` (lines 727-752).  Non-inclusive: clear the
flag of every previously selected item with a different id, set the item's
flag, replace the selection (lines 731-742).  Inclusive: delegate to
`selectItemInclusive`.  Then, when the item has a (truthy) group, walk the
*root* list `this.scheme.items` (line 745) and inclusively select every root
item sharing the group id.  Event-bus emissions are fire-and-forget and not
modelled. -/
def selectItem (c : Container) (item : Item) (inclusive : Bool) : Container :=
  let c1 :=
    if inclusive then selectItemInclusive c item
    else
      let cleared := c.selectedItems.foldl
        (fun acc sid => if sid ≠ item.id then setSelForest sid false acc else acc)
        c.scheme.items
      { c with scheme := { items := setSelForest item.id true cleared },
               selectedItems := [item.id] }
  match item.group with
  | some g =>
    if g = "" then c1
    else
      c1.scheme.items.foldl
        (fun cc other =>
          if other.group = item.group ∧ other.id ≠ item.id
          then selectItemInclusive cc other else cc)
        c1
  | none => c1

/-- `deselectAllItems()` (lines 791-797): clear every selected item's flag and
empty the selection. -/
def deselectAllItems (c : Container) : Container :=
  let items := c.selectedItems.foldl (fun acc sid => setSelForest sid false acc)
    c.scheme.items
  { c with scheme := { items := items }, selectedItems := [] }

/-- The selection claim's per-item property: the id resolves in the tree and
the resolved item's `meta.selected` is set. -/
def selectedFlagOn (items : List Item) (sid : String) : Prop :=
  ∃ it, findItemById items sid = some it ∧ it.meta.selected = true

theorem setSelForest_eq_map (i : String) (b : Bool) (l : List Item) :
    setSelForest i b l = l.map (setSelItem i b) := by
  induction l with
  | nil => rfl
  | cons it rest ih => simp [setSelForest, ih]

theorem setSelForest_map_id (i : String) (b : Bool) (l : List Item) :
    (setSelForest i b l).map Item.id = l.map Item.id := by
  rw [setSelForest_eq_map, List.map_map]
  congr 1
  funext it
  simp [setSelItem_id]

theorem setSelForest_map_group (i : String) (b : Bool) (l : List Item) :
    (setSelForest i b l).map Item.group = l.map Item.group := by
  rw [setSelForest_eq_map, List.map_map]
  congr 1
  funext it
  simp [setSelItem_group]

theorem selectedFlagOn_setSelForest_true {items : List Item} {sid : String} (r : String)
    (h : selectedFlagOn items sid) : selectedFlagOn (setSelForest r true items) sid := by
  obtain ⟨it, hf, hs⟩ := h
  refine ⟨setSelItem r true it, ?_, ?_⟩
  · rw [findItemById_setSelForest, hf]
    rfl
  · rw [setSelItem_selected]
    split <;> simp [hs]

theorem selectedFlagOn_setSelForest_self {items : List Item} {r : String}
    (h : ∃ it, findItemById items r = some it) :
    selectedFlagOn (setSelForest r true items) r := by
  obtain ⟨it, hf⟩ := h
  have hid := findItemById_id hf
  refine ⟨setSelItem r true it, ?_, ?_⟩
  · rw [findItemById_setSelForest, hf]
    rfl
  · rw [setSelItem_selected, hid]
    simp

theorem findItemById_isSome_of_id_mem {items : List Item} {q : String}
    (h : q ∈ (flattenForest items).map Item.id) :
    ∃ it, findItemById items q = some it := by
  unfold findItemById
  obtain ⟨it, hmem, hid⟩ := List.mem_map.mp h
  cases hfind : (flattenForest items).reverse.find? (fun x => x.id == q) with
  | some x => exact ⟨x, rfl⟩
  | none =>
    rw [List.find?_eq_none] at hfind
    exact absurd (by simp [hid]) (hfind it (by simp [hmem]))

theorem foldClear_flatten_ids (mId : String) (sids : List String) (acc : List Item) :
    (flattenForest (sids.foldl
        (fun acc sid => if sid ≠ mId then setSelForest sid false acc else acc) acc)).map
      Item.id = (flattenForest acc).map Item.id := by
  induction sids generalizing acc with
  | nil => rfl
  | cons sid rest ih =>
    simp only [List.foldl]
    rw [ih]
    by_cases h : sid ≠ mId
    · simp [h, flattenForest_map_id_setSelForest]
    · simp [h]

theorem foldClear_map_id (mId : String) (sids : List String) (acc : List Item) :
    (sids.foldl (fun acc sid => if sid ≠ mId then setSelForest sid false acc else acc)
        acc).map Item.id = acc.map Item.id := by
  induction sids generalizing acc with
  | nil => rfl
  | cons sid rest ih =>
    simp only [List.foldl]
    rw [ih]
    by_cases h : sid ≠ mId
    · simp [h, setSelForest_map_id]
    · simp [h]

theorem foldClear_map_group (mId : String) (sids : List String) (acc : List Item) :
    (sids.foldl (fun acc sid => if sid ≠ mId then setSelForest sid false acc else acc)
        acc).map Item.group = acc.map Item.group := by
  induction sids generalizing acc with
  | nil => rfl
  | cons sid rest ih =>
    simp only [List.foldl]
    rw [ih]
    by_cases h : sid ≠ mId
    · simp [h, setSelForest_map_group]
    · simp [h]

/-- Two root lists that agree pointwise on ids and groups produce the same
filtered id list for a predicate reading only ids and groups. -/
theorem filter_map_id_congr (mg : Option String) (mId : String) :
    ∀ (l l' : List Item), l.map Item.id = l'.map Item.id →
    l.map Item.group = l'.map Item.group →
    ((l.filter (fun r => decide (r.group = mg ∧ r.id ≠ mId))).map Item.id)
      = (l'.filter (fun r => decide (r.group = mg ∧ r.id ≠ mId))).map Item.id := by
  intro l
  induction l with
  | nil =>
    intro l' hid _
    have : l' = [] := by
      cases l' with
      | nil => rfl
      | cons x xs => simp at hid
    simp [this]
  | cons x xs ih =>
    intro l' hid hgr
    cases l' with
    | nil => simp at hid
    | cons y ys =>
      simp only [List.map_cons, List.cons.injEq] at hid hgr
      obtain ⟨hidh, hidt⟩ := hid
      obtain ⟨hgrh, hgrt⟩ := hgr
      by_cases hp : y.group = mg ∧ y.id ≠ mId
      · have hp' : x.group = mg ∧ x.id ≠ mId := by rw [hgrh, hidh]; exact hp
        rw [List.filter_cons, List.filter_cons, if_pos (decide_eq_true hp'),
          if_pos (decide_eq_true hp), List.map_cons, List.map_cons, hidh,
          ih ys hidt hgrt]
      · have hp' : ¬ (x.group = mg ∧ x.id ≠ mId) := by rw [hgrh, hidh]; exact hp
        rw [List.filter_cons, List.filter_cons,
          if_neg (by simp [decide_eq_false hp']), if_neg (by simp [decide_eq_false hp])]
        exact ih ys hidt hgrt

theorem roots_map_id_sublist (l : List Item) :
    (l.map Item.id).Sublist ((flattenForest l).map Item.id) := by
  induction l with
  | nil => simp [flattenForest]
  | cons x rest ih =>
    cases x with
    | mk i a g sh cs m ch =>
      simp only [flattenForest, flattenItem, List.map_cons, List.map_append, List.cons_append]
      exact (ih.trans (List.sublist_append_right _ _)).cons₂ _

theorem selectItemInclusive_scheme_of_not_mem (c : Container) (it : Item)
    (h : it.id ∉ c.selectedItems) :
    (selectItemInclusive c it).scheme.items = setSelForest it.id true c.scheme.items := by
  unfold selectItemInclusive sortSelectedItemsByAncestors
  simp [h]

theorem selectItemInclusive_sel_perm_of_not_mem (c : Container) (it : Item)
    (h : it.id ∉ c.selectedItems) :
    (selectItemInclusive c it).selectedItems.Perm (c.selectedItems ++ [it.id]) := by
  unfold selectItemInclusive sortSelectedItemsByAncestors
  simp [h, List.perm_insertionSort]

/-- The group loop of `selectItem` (lines 744-751), processed left to right:
it adds exactly the group-mates among the processed roots to the selection,
keeps every selected id's flag set, and never disturbs the tree's ids. -/
theorem groupLoop_invariant (m : Item) (baseIds : List String) :
    ∀ (rest : List Item) (cc : Container) (done : List String),
    (flattenForest cc.scheme.items).map Item.id = baseIds →
    (∀ r ∈ rest, r.id ∈ baseIds) →
    (∀ r ∈ rest, r.id ∉ done) →
    (rest.map Item.id).Nodup →
    cc.selectedItems.Perm (m.id :: done) →
    (∀ sid ∈ cc.selectedItems, selectedFlagOn cc.scheme.items sid) →
    ((rest.foldl
        (fun cc other => if other.group = m.group ∧ other.id ≠ m.id
          then selectItemInclusive cc other else cc) cc).selectedItems.Perm
      (m.id :: (done ++ ((rest.filter
          (fun r => decide (r.group = m.group ∧ r.id ≠ m.id))).map Item.id))) ∧
    (∀ sid ∈ (rest.foldl
        (fun cc other => if other.group = m.group ∧ other.id ≠ m.id
          then selectItemInclusive cc other else cc) cc).selectedItems,
      selectedFlagOn (rest.foldl
        (fun cc other => if other.group = m.group ∧ other.id ≠ m.id
          then selectItemInclusive cc other else cc) cc).scheme.items sid)) := by
  intro rest
  induction rest with
  | nil =>
    intro cc done hflat _ _ _ hperm hflags
    simpa using ⟨hperm, hflags⟩
  | cons r rest' ih =>
    intro cc done hflat hbase hdone hnd hperm hflags
    simp only [List.foldl_cons, List.filter_cons]
    have hndh2 : (r.id :: rest'.map Item.id).Nodup := by simpa using hnd
    have hndh : r.id ∉ rest'.map Item.id ∧ (rest'.map Item.id).Nodup :=
      List.nodup_cons.mp hndh2
    by_cases hp : r.group = m.group ∧ r.id ≠ m.id
    · rw [if_pos hp, if_pos (decide_eq_true hp)]
      have hnotmem : r.id ∉ cc.selectedItems := by
        intro hmemsel
        have : r.id ∈ m.id :: done := hperm.mem_iff.mp hmemsel
        rcases List.mem_cons.mp this with h | h
        · exact hp.2 h
        · exact hdone r (List.mem_cons_self r rest') h
      have hscheme1 : (selectItemInclusive cc r).scheme.items
          = setSelForest r.id true cc.scheme.items :=
        selectItemInclusive_scheme_of_not_mem cc r hnotmem
      have hsel1 : (selectItemInclusive cc r).selectedItems.Perm
          (m.id :: (done ++ [r.id])) := by
        refine (selectItemInclusive_sel_perm_of_not_mem cc r hnotmem).trans ?_
        have h2 := hperm.append_right [r.id]
        simpa using h2
      have hflags1 : ∀ sid ∈ (selectItemInclusive cc r).selectedItems,
          selectedFlagOn (selectItemInclusive cc r).scheme.items sid := by
        intro sid hsid
        rw [hscheme1]
        have hsidm : sid ∈ m.id :: (done ++ [r.id]) := hsel1.mem_iff.mp hsid
        by_cases hsr : sid = r.id
        · subst hsr
          exact selectedFlagOn_setSelForest_self
            (findItemById_isSome_of_id_mem (by
              rw [hflat]
              exact hbase r (List.mem_cons_self r rest')))
        · have hold : sid ∈ cc.selectedItems := by
            rcases List.mem_cons.mp hsidm with h | h
            · exact hperm.mem_iff.mpr (by simp [h])
            · rcases List.mem_append.mp h with h | h
              · exact hperm.mem_iff.mpr (by simp [h])
              · exact absurd (by simpa using h) hsr
          exact selectedFlagOn_setSelForest_true _ (hflags sid hold)
      have hflat1 : (flattenForest (selectItemInclusive cc r).scheme.items).map Item.id
          = baseIds := by
        rw [hscheme1, flattenForest_map_id_setSelForest, hflat]
      have hout := ih (selectItemInclusive cc r) (done ++ [r.id]) hflat1
        (fun r' hr' => hbase r' (List.mem_cons_of_mem r hr'))
        (fun r' hr' => by
          intro hmem
          rcases List.mem_append.mp hmem with h | h
          · exact hdone r' (List.mem_cons_of_mem r hr') h
          · have hrr : r'.id = r.id := by simpa using h
            exact hndh.1 (hrr ▸ List.mem_map_of_mem Item.id hr'))
        hndh.2 hsel1 hflags1
      refine ⟨?_, hout.2⟩
      have hperm' := hout.1
      simpa [List.append_assoc] using hperm'
    · rw [if_neg hp, if_neg (by simp [decide_eq_false hp])]
      exact ih cc done hflat (fun r' hr' => hbase r' (List.mem_cons_of_mem r hr'))
        (fun r' hr' => hdone r' (List.mem_cons_of_mem r hr'))
        hndh.2 hperm hflags

/-- Unfolding of non-inclusive `selectItem` on a grouped item: clear the other
flags, select the item, then run the group loop over the root list. -/
theorem selectItem_false_eq (c : Container) (m : Item) (g : String)
    (hg : m.group = some g) (hgne : g ≠ "") :
    selectItem c m false
      = (let cleared := c.selectedItems.foldl
            (fun acc sid => if sid ≠ m.id then setSelForest sid false acc else acc)
            c.scheme.items
         let c1 : Container := { scheme := { items := setSelForest m.id true cleared },
                                 selectedItems := [m.id], copyBuffer := c.copyBuffer }
         c1.scheme.items.foldl
           (fun cc other => if other.group = m.group ∧ other.id ≠ m.id
             then selectItemInclusive cc other else cc) c1) := by
  unfold selectItem
  rw [hg]
  simp [hgne]

/-- C4 (amended): group closure over the root list.  Selecting a member `m` of
group `g` (non-inclusively) selects `m` together with exactly the *top-level*
(root) items sharing the group id — each selected id resolving to an item with
`meta.selected = true`.  Group members nested deeper in the tree are not picked
up, because the group loop of lines 744-751 walks `this.scheme.items` only. -/
theorem selectItem_selects_member_and_root_group_mates
    (c : Container) (m : Item) (g : String)
    (hm : m ∈ flattenForest c.scheme.items)
    (hg : m.group = some g) (hgne : g ≠ "")
    (hnd : ((flattenForest c.scheme.items).map Item.id).Nodup) :
    (selectItem c m false).selectedItems.Perm
        (m.id :: ((c.scheme.items.filter
            (fun r => decide (r.group = m.group ∧ r.id ≠ m.id))).map Item.id)) ∧
    (∀ sid ∈ (selectItem c m false).selectedItems,
        selectedFlagOn (selectItem c m false).scheme.items sid) := by
  rw [selectItem_false_eq c m g hg hgne]
  set cleared := c.selectedItems.foldl
      (fun acc sid => if sid ≠ m.id then setSelForest sid false acc else acc)
      c.scheme.items with hcleareddef
  set c1 : Container := { scheme := { items := setSelForest m.id true cleared },
                          selectedItems := [m.id], copyBuffer := c.copyBuffer } with hc1def
  have hflat1 : (flattenForest c1.scheme.items).map Item.id
      = (flattenForest c.scheme.items).map Item.id := by
    rw [hc1def]
    show (flattenForest (setSelForest m.id true cleared)).map Item.id = _
    rw [flattenForest_map_id_setSelForest, hcleareddef, foldClear_flatten_ids]
  have hrootsid : c1.scheme.items.map Item.id = c.scheme.items.map Item.id := by
    rw [hc1def]
    show (setSelForest m.id true cleared).map Item.id = _
    rw [setSelForest_map_id, hcleareddef, foldClear_map_id]
  have hrootsgr : c1.scheme.items.map Item.group = c.scheme.items.map Item.group := by
    rw [hc1def]
    show (setSelForest m.id true cleared).map Item.group = _
    rw [setSelForest_map_group, hcleareddef, foldClear_map_group]
  have hout := groupLoop_invariant m ((flattenForest c.scheme.items).map Item.id)
    c1.scheme.items c1 []
    hflat1
    (fun r hr => by
      rw [← hflat1]
      exact List.mem_map_of_mem Item.id (mem_flattenForest_of_mem hr))
    (fun r _ => List.not_mem_nil r.id)
    (by
      rw [hrootsid]
      exact (roots_map_id_sublist c.scheme.items).nodup hnd)
    (by rw [hc1def])
    (by
      intro sid hsid
      rw [hc1def] at hsid ⊢
      have hm' : sid = m.id := by simpa using hsid
      subst hm'
      show selectedFlagOn (setSelForest m.id true cleared) m.id
      refine selectedFlagOn_setSelForest_self (findItemById_isSome_of_id_mem ?_)
      have : (flattenForest cleared).map Item.id
          = (flattenForest c.scheme.items).map Item.id := by
        rw [hcleareddef, foldClear_flatten_ids]
      rw [this]
      exact List.mem_map_of_mem Item.id hm)
  refine ⟨?_, hout.2⟩
  have hfilter : ((c1.scheme.items.filter
      (fun r => decide (r.group = m.group ∧ r.id ≠ m.id))).map Item.id)
      = ((c.scheme.items.filter
          (fun r => decide (r.group = m.group ∧ r.id ≠ m.id))).map Item.id) :=
    filter_map_id_congr m.group m.id c1.scheme.items c.scheme.items hrootsid hrootsgr
  have hperm := hout.1
  rw [hfilter] at hperm
  simpa using hperm

/-- A root item in group `"g"`. -/
def c4ItemA : Item :=
  Item.mk "A" { x := 0, y := 0, w := 1, h := 1, r := 0 } (some "g") none []
    { transform := some zeroTransform, ancestorIds := [], parentId := none,
      selected := false } []

/-- A *nested* item in group `"g"`, child of the ungrouped root `C`. -/
def c4ItemB : Item :=
  Item.mk "B" { x := 2, y := 2, w := 1, h := 1, r := 0 } (some "g") none []
    { transform := some zeroTransform, ancestorIds := ["C"], parentId := some "C",
      selected := false } []

def c4ItemC : Item :=
  Item.mk "C" { x := 5, y := 5, w := 1, h := 1, r := 0 } none none []
    { transform := some zeroTransform, ancestorIds := [], parentId := none,
      selected := false } [c4ItemB]

def c4Ctr : Container :=
  { scheme := { items := [c4ItemA, c4ItemC] }, selectedItems := [], copyBuffer := [] }

/-- Counterexample to C4 as stated: the scheme holds a live group of two items
(`A` at the root, `B` nested under `C`), yet selecting `A` produces the
selection `["A"]` alone — the nested group member `B` is neither selected nor
flagged, because the group loop only scans the root list. -/
theorem selectItem_misses_nested_group_member :
    (selectItem c4Ctr c4ItemA false).selectedItems = ["A"] ∧
    ((findItemById (selectItem c4Ctr c4ItemA false).scheme.items "B").map
        (fun it => it.meta.selected)) = some false ∧
    ((findItemById (selectItem c4Ctr c4ItemA false).scheme.items "B").map Item.group)
      = some (some "g") := by
  refine ⟨?_, ?_, ?_⟩ <;> rfl

/-- Witness for the amended C4 at the same concrete container: the selection is
exactly `A` plus the root-level group mates (here: none). -/
theorem selectItem_selects_member_and_root_group_mates_witness :
    (selectItem c4Ctr c4ItemA false).selectedItems.Perm
        (c4ItemA.id :: ((c4Ctr.scheme.items.filter
            (fun r => decide (r.group = c4ItemA.group ∧ r.id ≠ c4ItemA.id))).map Item.id)) ∧
    (∀ sid ∈ (selectItem c4Ctr c4ItemA false).selectedItems,
        selectedFlagOn (selectItem c4Ctr c4ItemA false).scheme.items sid) :=
  selectItem_selects_member_and_root_group_mates c4Ctr c4ItemA "g"
    (by simp [c4Ctr, flattenForest, flattenItem, c4ItemA, c4ItemC])
    rfl
    (by decide)
    (by
      have : (flattenForest c4Ctr.scheme.items).map Item.id = ["A", "C", "B"] := rfl
      rw [this]
      decide)

/-!
## C2: the un-parent scenario of `remountItemInsideOtherItem`
-/

/-- Unfolding of `remountItemInsideOtherItem(itemId, null, pos)` on the
successful path (item found, parent found, index found): the item is removed
from its parent's child list, spliced into the root list at `pos`, its local
position replaced by its old world origin, and its rotation corrected by the
old parent chain's total rotation; then everything is reindexed. -/
theorem remount_unparent_eq (s : Scheme) (itemId : String) (pos : Nat)
    (item parent : Item) (pid : String) (index : Nat)
    (hfind : findItemById s.items itemId = some item)
    (hpid : item.meta.parentId = some pid)
    (hparent : findItemById s.items pid = some parent)
    (hidx : parent.childItems.findIdx? (fun it => it.id == itemId) = some index) :
    remountItemInsideOtherItem s itemId none pos
      = reindexItems (Scheme.mk (spliceInsert pos
          (item.withArea (Area.mk
            (worldPointOnItem 0 0 item).x
            (worldPointOnItem 0 0 item).y
            item.area.w
            item.area.h
            (item.area.r
              + ((parent.meta.transform.getD zeroTransform).r + parent.area.r - 0))))
          (updateById pid (fun par => par.withChildItems (par.childItems.eraseIdx index))
            s.items))) := by
  unfold remountItemInsideOtherItem
  rw [hfind]
  simp only [hpid, hparent, hidx]
  rw [findItemById_id hparent]
  simp

def c2AreaP : Area := { x := 0, y := 0, w := 0, h := 0, r := 90 }

def c2AreaI : Area := { x := 10, y := 10, w := 0, h := 0, r := 0 }

/-- The raw scenario tree: parent `P` at the world origin rotated 90°, child
`I` at local `(10, 10)`. -/
def c2Raw : Scheme :=
  { items := [Item.mk "P" c2AreaP none none [] Meta.fresh
      [Item.mk "I" c2AreaI none none [] Meta.fresh []]] }

def c2IndexedI : Item :=
  Item.mk "I" c2AreaI none none []
    { transform := some { x := 0, y := 0, r := 90 }, ancestorIds := ["P"],
      parentId := some "P", selected := false } []

def c2IndexedP : Item :=
  Item.mk "P" c2AreaP none none []
    { transform := some zeroTransform, ancestorIds := [], parentId := none,
      selected := false } [c2IndexedI]

def c2Indexed : Scheme := { items := [c2IndexedP] }

theorem c2_reindex_eval : reindexItems c2Raw = c2Indexed := by
  unfold reindexItems c2Raw c2Indexed c2IndexedP c2IndexedI Meta.fresh
  simp only [reindexForest]
  norm_num [rad, zeroTransform, c2AreaP, c2AreaI]

theorem c2_world_of_indexed_child :
    worldPointOnItem 0 0 c2IndexedI = { x := -10, y := 10 } := by
  have h0 : c2AreaI.r = 0 := rfl
  have hrad : rad 90 = Real.pi / 2 := by unfold rad; ring
  have hrad' : rad (90 + c2AreaI.r) = Real.pi / 2 := by
    rw [h0]
    unfold rad
    ring
  simp only [worldPointOnItem, c2IndexedI, Item.meta, Item.area, Option.getD, hrad, hrad',
    Real.cos_pi_div_two, Real.sin_pi_div_two]
  norm_num [c2AreaI]

/-- The item `I` as it stands after the un-parent remount and reindex. -/
def c2FinalI : Item :=
  Item.mk "I" (Area.mk (-10) 10 0 0 (c2AreaI.r + 90)) none none []
    { transform := some zeroTransform, ancestorIds := [], parentId := none,
      selected := false } []

/-- C2: un-parenting preserves world placement.  Starting from `P` (rotated
90°, at the world origin) holding `I` at local `(10, 10)`, after
`remountItemInsideOtherItem(I, null, 0)` and its reindex, `I`'s local area is
`(-10, 10)`, its rotation has grown by 90°, and its world origin is still
`(-10, 10)`. -/
theorem remount_unparent_preserves_world_placement :
    ((findItemById (remountItemInsideOtherItem (reindexItems c2Raw) "I" none 0).items "I").map
        (fun it => it.area.x)) = some (-10) ∧
    ((findItemById (remountItemInsideOtherItem (reindexItems c2Raw) "I" none 0).items "I").map
        (fun it => it.area.y)) = some 10 ∧
    ((findItemById (remountItemInsideOtherItem (reindexItems c2Raw) "I" none 0).items "I").map
        (fun it => it.area.r)) = some (c2AreaI.r + 90) ∧
    ((findItemById (remountItemInsideOtherItem (reindexItems c2Raw) "I" none 0).items "I").map
        (fun it => worldPointOnItem 0 0 it)) = some { x := -10, y := 10 } := by
  rw [c2_reindex_eval]
  have h2 := remount_unparent_eq c2Indexed "I" 0 c2IndexedI c2IndexedP "P" 0
    rfl rfl rfl rfl
  rw [h2, c2_world_of_indexed_child]
  have hfin : (reindexItems (Scheme.mk (spliceInsert 0
      (c2IndexedI.withArea (Area.mk
        (Point.mk (-10) 10).x
        (Point.mk (-10) 10).y
        c2IndexedI.area.w
        c2IndexedI.area.h
        (c2IndexedI.area.r
          + ((c2IndexedP.meta.transform.getD zeroTransform).r + c2IndexedP.area.r - 0))))
      (updateById "P"
        (fun par => par.withChildItems (par.childItems.eraseIdx 0))
        c2Indexed.items)))).items
      = [c2FinalI,
        Item.mk "P" c2AreaP none none []
          { transform := some zeroTransform, ancestorIds := [], parentId := none,
            selected := false } []] := by
    unfold reindexItems c2Indexed c2IndexedP c2IndexedI c2FinalI
    simp only [updateById, spliceInsert, Item.withArea, Item.withChildItems, Item.id,
      Item.meta, Item.area, List.eraseIdx, List.take, List.drop, Option.getD]
    norm_num [reindexForest, rad, zeroTransform, c2AreaI, c2AreaP]
  rw [hfin]
  have hfind : findItemById [c2FinalI,
      Item.mk "P" c2AreaP none none []
        { transform := some zeroTransform, ancestorIds := [], parentId := none,
          selected := false } []] "I" = some c2FinalI := rfl
  rw [hfind]
  refine ⟨by simp [c2FinalI, Item.area], by simp [c2FinalI, Item.area],
    by simp [c2FinalI, Item.area], ?_⟩
  simp only [Option.map_some, worldPointOnItem, c2FinalI, Item.meta, Item.area,
    Option.getD, zeroTransform]
  norm_num [rad, c2AreaI]


/-!
## Copy/paste (lines 966-1014)
-/

mutual

/-- Erases every `meta` in a subtree: the projection under which structural
statements are invariant to reindexing and selection-flag writes. -/
def stripMetaItem : Item → Item
  | .mk i a g sh cs _ ch => .mk i a g sh cs Meta.fresh (stripMetaForest ch)

def stripMetaForest : List Item → List Item
  | [] => []
  | it :: rest => stripMetaItem it :: stripMetaForest rest

end

mutual

theorem stripMetaItem_setSelItem (i : String) (b : Bool) (it : Item) :
    stripMetaItem (setSelItem i b it) = stripMetaItem it := by
  cases it with
  | mk id' a g sh cs m ch =>
    simp only [setSelItem, stripMetaItem]
    rw [stripMetaForest_setSelForest i b ch]

theorem stripMetaForest_setSelForest (i : String) (b : Bool) (l : List Item) :
    stripMetaForest (setSelForest i b l) = stripMetaForest l := by
  cases l with
  | nil => rfl
  | cons x rest =>
    simp only [setSelForest, stripMetaForest]
    rw [stripMetaItem_setSelItem i b x, stripMetaForest_setSelForest i b rest]

end

theorem stripMetaForest_eq_map (l : List Item) :
    stripMetaForest l = l.map stripMetaItem := by
  induction l with
  | nil => rfl
  | cons x rest ih => simp [stripMetaForest, ih]

/-- Reindexing rewrites only `meta`: under `stripMetaItem` it is invisible. -/
theorem stripMetaForest_reindexForest (t : TransformT) (pid : Option String)
    (anc : List String) (l : List Item) :
    stripMetaForest (reindexForest t pid anc l) = stripMetaForest l := by
  induction t, pid, anc, l using reindexForest.induct with
  | case1 t pid anc => simp [reindexForest, stripMetaForest]
  | case2 t pid anc i a g sh cs m ch rest cosa sina childT ihch ihrest =>
    simp only [reindexForest, stripMetaForest, stripMetaItem]
    exact congrArg₂ List.cons (congrArg (Item.mk i a g sh cs Meta.fresh) ihch) ihrest

theorem reindexForest_map_id (t : TransformT) (pid : Option String)
    (anc : List String) (l : List Item) :
    (reindexForest t pid anc l).map Item.id = l.map Item.id := by
  induction t, pid, anc, l using reindexForest.induct with
  | case1 t pid anc => simp [reindexForest]
  | case2 t pid anc i a g sh cs m ch rest cosa sina childT ihch ihrest =>
    simp only [reindexForest, List.map_cons, Item.id]
    rw [ihrest]

theorem reindexForest_map_stripMeta (t : TransformT) (pid : Option String)
    (anc : List String) (l : List Item) :
    (reindexForest t pid anc l).map stripMetaItem = l.map stripMetaItem := by
  rw [← stripMetaForest_eq_map, ← stripMetaForest_eq_map]
  exact stripMetaForest_reindexForest t pid anc l

mutual

/-- The size of a subtree (number of items), pre-order. -/
def itemSize : Item → Nat
  | .mk _ _ _ _ _ _ ch => 1 + forestSize ch

def forestSize : List Item → Nat
  | [] => 0
  | it :: rest => itemSize it + forestSize rest

end

mutual

/-- `copyItem(oldItem)` (lines 996-1014): a fresh id from the generator, a
fresh bare meta (`{hovered:false, selected:false}`), no connectors (the field
loop skips `connectors`, `id` and `meta`), every other field deep-cloned
(`utils.clone` of plain data is, in a pure model, the value itself), and the
children copied recursively in order.  The id supply models
`shortid.generate()`; ids are consumed in pre-order, `supply n` first. -/
def copyItemAux (supply : Nat → String) (n : Nat) : Item → Item × Nat
  | .mk _ a g sh _ _ ch =>
    let res := copyForest supply (n + 1) ch
    (.mk (supply n) a g sh [] Meta.fresh res.1, res.2)

def copyForest (supply : Nat → String) (n : Nat) : List Item → List Item × Nat
  | [] => ([], n)
  | it :: rest =>
    let r1 := copyItemAux supply n it
    let r2 := copyForest supply r1.2 rest
    (r1.1 :: r2.1, r2.2)

end

mutual

theorem copyItemAux_ids (supply : Nat → String) (n : Nat) (it : Item) :
    ((flattenItem (copyItemAux supply n it).1).map Item.id
        = (List.range' n (itemSize it)).map supply)
    ∧ (copyItemAux supply n it).2 = n + itemSize it := by
  cases it with
  | mk i a g sh cs m ch =>
    have hf := copyForest_ids supply (n + 1) ch
    constructor
    · simp only [copyItemAux, flattenItem, List.map_cons, Item.id, itemSize]
      rw [hf.1]
      have : List.range' n (1 + forestSize ch) = n :: List.range' (n + 1) (forestSize ch) := by
        rw [Nat.add_comm 1 (forestSize ch), List.range'_succ]
      rw [this, List.map_cons]
    · simp only [copyItemAux, itemSize]
      rw [hf.2]
      omega

theorem copyForest_ids (supply : Nat → String) (n : Nat) (l : List Item) :
    ((flattenForest (copyForest supply n l).1).map Item.id
        = (List.range' n (forestSize l)).map supply)
    ∧ (copyForest supply n l).2 = n + forestSize l := by
  cases l with
  | nil => exact ⟨rfl, rfl⟩
  | cons it rest =>
    have h1 := copyItemAux_ids supply n it
    have h2 := copyForest_ids supply (n + itemSize it) rest
    constructor
    · simp only [copyForest, flattenForest, List.map_append, forestSize]
      rw [h1.1]
      rw [h1.2]
      rw [h2.1]
      rw [← List.map_append]
      congr 1
      have h3 := List.range'_append n (itemSize it) (forestSize rest) 1
      simp only [Nat.mul_one, one_mul] at h3
      rw [Nat.add_comm (forestSize rest) (itemSize it)] at h3
      simpa using h3
    · simp only [copyForest, forestSize]
      rw [h1.2, h2.2]
      omega

end

/-- The meta-and-id-free skeleton of an item: area, group, shape and the
children's skeletons.  Equality of cores is what "deep clone of the parent
with the descendant cloned inside it" means. -/
inductive Core where
  | mk (area : Area) (group : Option String) (shape : Option String) (children : List Core)

mutual

def coreItem : Item → Core
  | .mk _ a g sh _ _ ch => .mk a g sh (coreForest ch)

def coreForest : List Item → List Core
  | [] => []
  | it :: rest => coreItem it :: coreForest rest

end

mutual

theorem coreItem_copy (supply : Nat → String) (n : Nat) (it : Item) :
    coreItem (copyItemAux supply n it).1 = coreItem it := by
  cases it with
  | mk i a g sh cs m ch =>
    simp only [copyItemAux, coreItem]
    rw [coreForest_copy supply (n + 1) ch]

theorem coreForest_copy (supply : Nat → String) (n : Nat) (l : List Item) :
    coreForest (copyForest supply n l).1 = coreForest l := by
  cases l with
  | nil => rfl
  | cons it rest =>
    simp only [copyForest, coreForest]
    rw [coreItem_copy supply n it, coreForest_copy supply ((copyItemAux supply n it).2) rest]

end

mutual

theorem copyItemAux_no_connectors (supply : Nat → String) (n : Nat) (it : Item) :
    ∀ x ∈ flattenItem (copyItemAux supply n it).1, x.connectors = [] := by
  cases it with
  | mk i a g sh cs m ch =>
    intro x hx
    simp only [copyItemAux, flattenItem, List.mem_cons] at hx
    rcases hx with hx | hx
    · rw [hx]; rfl
    · exact copyForest_no_connectors supply (n + 1) ch x hx

theorem copyForest_no_connectors (supply : Nat → String) (n : Nat) (l : List Item) :
    ∀ x ∈ flattenForest (copyForest supply n l).1, x.connectors = [] := by
  cases l with
  | nil => intro x hx; cases hx
  | cons it rest =>
    intro x hx
    simp only [copyForest, flattenForest, List.mem_append] at hx
    rcases hx with hx | hx
    · exact copyItemAux_no_connectors supply n it x hx
    · exact copyForest_no_connectors supply ((copyItemAux supply n it).2) rest x hx

end
theorem Item.withArea_id (it : Item) (a : Area) : (it.withArea a).id = it.id := by
  cases it; rfl

theorem copyItemAux_root_id (supply : Nat → String) (n : Nat) (it : Item) :
    (copyItemAux supply n it).1.id = supply n := by
  cases it; rfl

theorem setSelForest_map_strip (i : String) (b : Bool) (l : List Item) :
    (setSelForest i b l).map stripMetaItem = l.map stripMetaItem := by
  rw [← stripMetaForest_eq_map, ← stripMetaForest_eq_map, stripMetaForest_setSelForest]

theorem selectItemInclusive_roots_map_id (cc : Container) (it : Item) :
    (selectItemInclusive cc it).scheme.items.map Item.id
      = cc.scheme.items.map Item.id := by
  unfold selectItemInclusive sortSelectedItemsByAncestors
  by_cases h : it.id ∈ cc.selectedItems <;> simp [h, setSelForest_map_id]

theorem selectItemInclusive_roots_map_strip (cc : Container) (it : Item) :
    (selectItemInclusive cc it).scheme.items.map stripMetaItem
      = cc.scheme.items.map stripMetaItem := by
  unfold selectItemInclusive sortSelectedItemsByAncestors
  by_cases h : it.id ∈ cc.selectedItems <;> simp [h, setSelForest_map_strip]

theorem groupFold_map_invariant {β : Type} (φ : List Item → β) (m : Item)
    (h : ∀ (cc : Container) (it : Item),
      φ ((selectItemInclusive cc it).scheme.items) = φ (cc.scheme.items)) :
    ∀ (l : List Item) (cc : Container),
    φ ((l.foldl (fun cc2 other => if other.group = m.group ∧ other.id ≠ m.id
        then selectItemInclusive cc2 other else cc2) cc).scheme.items)
      = φ (cc.scheme.items) := by
  intro l
  induction l with
  | nil => intro cc; rfl
  | cons r rest ih =>
    intro cc
    simp only [List.foldl_cons]
    by_cases hp : r.group = m.group ∧ r.id ≠ m.id
    · rw [if_pos hp, ih, h]
    · rw [if_neg hp, ih]

/-- `selectItem` only writes selection flags into the tree: any projection that
is blind to flag writes (and to `selectItemInclusive`) is preserved. -/
theorem selectItem_scheme_invariant {β : Type} (φ : List Item → β)
    (hincl : ∀ (cc : Container) (it : Item),
      φ ((selectItemInclusive cc it).scheme.items) = φ (cc.scheme.items))
    (hset : ∀ (i : String) (b : Bool) (l : List Item), φ (setSelForest i b l) = φ l)
    (cc : Container) (it : Item) (b : Bool) :
    φ ((selectItem cc it b).scheme.items) = φ (cc.scheme.items) := by
  have hclear : ∀ (sids : List String) (acc : List Item),
      φ (sids.foldl
          (fun acc sid => if sid ≠ it.id then setSelForest sid false acc else acc) acc)
        = φ acc := by
    intro sids
    induction sids with
    | nil => intro acc; rfl
    | cons sid rest ih =>
      intro acc
      simp only [List.foldl]
      rw [ih]
      by_cases h : sid ≠ it.id
      · rw [if_pos h, hset]
      · rw [if_neg h]
  unfold selectItem
  split
  · split
    · split
      · exact hincl cc it
      · rw [groupFold_map_invariant φ it hincl]
        exact hincl cc it
    · exact hincl cc it
  · split
    · split
      · show φ (setSelForest it.id true _) = φ cc.scheme.items
        rw [hset, hclear]
      · rw [groupFold_map_invariant φ it hincl]
        show φ (setSelForest it.id true _) = φ cc.scheme.items
        rw [hset, hclear]
    · show φ (setSelForest it.id true _) = φ cc.scheme.items
      rw [hset, hclear]

theorem deselectFold_map_id (sids : List String) (acc : List Item) :
    (sids.foldl (fun acc sid => setSelForest sid false acc) acc).map Item.id
      = acc.map Item.id := by
  induction sids generalizing acc with
  | nil => rfl
  | cons sid rest ih =>
    simp only [List.foldl]
    rw [ih, setSelForest_map_id]

theorem deselectFold_map_strip (sids : List String) (acc : List Item) :
    (sids.foldl (fun acc sid => setSelForest sid false acc) acc).map stripMetaItem
      = acc.map stripMetaItem := by
  induction sids generalizing acc with
  | nil => rfl
  | cons sid rest ih =>
    simp only [List.foldl]
    rw [ih, setSelForest_map_strip]

theorem selectItem_roots_map_id (cc : Container) (it : Item) (b : Bool) :
    (selectItem cc it b).scheme.items.map Item.id = cc.scheme.items.map Item.id :=
  selectItem_scheme_invariant (List.map Item.id) selectItemInclusive_roots_map_id
    setSelForest_map_id cc it b

theorem selectItem_roots_map_strip (cc : Container) (it : Item) (b : Bool) :
    (selectItem cc it b).scheme.items.map stripMetaItem
      = cc.scheme.items.map stripMetaItem :=
  selectItem_scheme_invariant (List.map stripMetaItem) selectItemInclusive_roots_map_strip
    setSelForest_map_strip cc it b

/-- The loop body of `pasteSelectedItems` (lines 974-991): skip the buffer item
when one of its ancestors was already copied in this batch; otherwise mark it
copied, deep-copy it, place the copy at the item's world origin with the
dropped ancestor rotation folded into `area.r` (lines 979-986), push the copy
onto the root list (line 988) and inclusively select the *original* item
(line 989).  The state is (container, copied ids, next fresh-id index). -/
def pasteStep (supply : Nat → String) (st : Container × List String × Nat)
    (item : Item) : Container × List String × Nat :=
  if item.meta.ancestorIds.any (fun a => st.2.1.contains a) then st
  else
    let cc := st.1
    let copied := item.id :: st.2.1
    let worldPoint := worldPointOnItem 0 0 item
    let cr := copyItemAux supply st.2.2 item
    let newItem := cr.1.withArea (Area.mk worldPoint.x worldPoint.y cr.1.area.w cr.1.area.h
      (match item.meta.transform with
       | some t => cr.1.area.r + t.r
       | none => cr.1.area.r))
    let cc1 : Container := { cc with scheme := { items := cc.scheme.items ++ [newItem] } }
    (selectItem cc1 item true, copied, cr.2)

/-- `pasteSelectedItems()` (lines 970-994): deselect everything, walk the copy
buffer accumulating the copied-id set, then reindex. -/
def pasteSelectedItems (supply : Nat → String) (c : Container) : Container :=
  let c0 := deselectAllItems c
  let res := c.copyBuffer.foldl (pasteStep supply) (c0, [], 0)
  { res.1 with scheme := reindexItems res.1.scheme }

/-- The root item that pasting appends for the first taken buffer item: its
deep copy, placed at its old world origin, rotation corrected by the dropped
ancestor transform (lines 979-986 with the fresh-id index at 0). -/
def placedClone (supply : Nat → String) (p : Item) : Item :=
  (copyItemAux supply 0 p).1.withArea (Area.mk
    (worldPointOnItem 0 0 p).x
    (worldPointOnItem 0 0 p).y
    (copyItemAux supply 0 p).1.area.w
    (copyItemAux supply 0 p).1.area.h
    (match p.meta.transform with
     | some t => (copyItemAux supply 0 p).1.area.r + t.r
     | none => (copyItemAux supply 0 p).1.area.r))

theorem pasteStep_skip (supply : Nat → String) (st : Container × List String × Nat)
    (item : Item)
    (h : (item.meta.ancestorIds.any fun a => st.2.1.contains a) = true) :
    pasteStep supply st item = st := by
  unfold pasteStep
  rw [h]
  simp

theorem pasteStep_take (supply : Nat → String) (st : Container × List String × Nat)
    (item : Item)
    (h : (item.meta.ancestorIds.any fun a => st.2.1.contains a) = false) :
    pasteStep supply st item
      = (selectItem (Container.mk
          (Scheme.mk (st.1.scheme.items
            ++ [(copyItemAux supply st.2.2 item).1.withArea (Area.mk
                  (worldPointOnItem 0 0 item).x
                  (worldPointOnItem 0 0 item).y
                  (copyItemAux supply st.2.2 item).1.area.w
                  (copyItemAux supply st.2.2 item).1.area.h
                  (match item.meta.transform with
                   | some t => (copyItemAux supply st.2.2 item).1.area.r + t.r
                   | none => (copyItemAux supply st.2.2 item).1.area.r))]))
          st.1.selectedItems st.1.copyBuffer) item true,
        item.id :: st.2.1, (copyItemAux supply st.2.2 item).2) := by
  unfold pasteStep
  rw [h]
  rfl

/-- C7: paste skips nested duplicates.  With the copy buffer holding a parent
`p` and, after it in ancestor-depth order, a descendant `q` of `p` (p's id
occurs in q's `meta.ancestorIds`), paste appends exactly one root item — the
placed deep clone of `p` — and nothing for `q`; the clone's core (areas,
groups, shapes, child structure) equals `p`'s, every cloned node carries a
fresh generated id (the supply's outputs in pre-order), and no cloned node has
connectors. -/
theorem pasteSelectedItems_skips_nested_duplicates
    (supply : Nat → String) (c : Container) (p q : Item)
    (hbuf : c.copyBuffer = [p, q])
    (hanc : p.id ∈ q.meta.ancestorIds) :
    ((pasteSelectedItems supply c).scheme.items.map Item.id
        = c.scheme.items.map Item.id ++ [supply 0]) ∧
    (((pasteSelectedItems supply c).scheme.items.map stripMetaItem).getLast?
        = some (stripMetaItem (placedClone supply p))) ∧
    (coreItem (copyItemAux supply 0 p).1 = coreItem p) ∧
    ((flattenItem (copyItemAux supply 0 p).1).map Item.id
        = (List.range' 0 (itemSize p)).map supply) ∧
    (∀ x ∈ flattenItem (copyItemAux supply 0 p).1, x.connectors = []) := by
  have hskip1 : (p.meta.ancestorIds.any fun a => ([] : List String).contains a) = false := by
    simp
  have hskip2 : (q.meta.ancestorIds.any fun a => ([p.id] : List String).contains a)
      = true :=
    List.any_eq_true.mpr ⟨p.id, hanc, by simp⟩
  have hrun : pasteSelectedItems supply c
      = { (c.copyBuffer.foldl (pasteStep supply) (deselectAllItems c, [], 0)).1 with
          scheme := reindexItems
            (c.copyBuffer.foldl (pasteStep supply) (deselectAllItems c, [], 0)).1.scheme } := by
    unfold pasteSelectedItems
    rfl
  rw [hrun, hbuf]
  simp only [List.foldl_cons, List.foldl_nil]
  rw [pasteStep_take supply (deselectAllItems c, [], 0) p hskip1]
  rw [pasteStep_skip supply _ q hskip2]
  refine ⟨?_, ?_, coreItem_copy supply 0 p, (copyItemAux_ids supply 0 p).1,
    copyItemAux_no_connectors supply 0 p⟩
  · show (reindexForest zeroTransform none [] _).map Item.id = _
    rw [reindexForest_map_id, selectItem_roots_map_id]
    show ((deselectAllItems c).scheme.items ++ [_]).map Item.id = _
    rw [List.map_append]
    have hd : (deselectAllItems c).scheme.items.map Item.id
        = c.scheme.items.map Item.id := by
      show (c.selectedItems.foldl (fun acc sid => setSelForest sid false acc)
          c.scheme.items).map Item.id = _
      exact deselectFold_map_id c.selectedItems c.scheme.items
    rw [hd]
    simp [Item.withArea_id, copyItemAux_root_id]
  · show ((reindexForest zeroTransform none [] _).map stripMetaItem).getLast? = _
    rw [reindexForest_map_stripMeta, selectItem_roots_map_strip]
    show (((deselectAllItems c).scheme.items ++ [_]).map stripMetaItem).getLast? = _
    rw [List.map_append]
    simp only [List.map_cons, List.map_nil]
    rw [List.getLast?_concat]
    rfl

def c7Child : Item :=
  Item.mk "Q" { x := 1, y := 1, w := 2, h := 2, r := 0 } none none []
    { transform := some zeroTransform, ancestorIds := ["P"], parentId := some "P",
      selected := false } []

def c7Parent : Item :=
  Item.mk "P" { x := 3, y := 3, w := 4, h := 4, r := 0 } none none []
    { transform := some zeroTransform, ancestorIds := [], parentId := none,
      selected := false } [c7Child]

def c7Ctr : Container :=
  { scheme := { items := [c7Parent] }, selectedItems := [],
    copyBuffer := [c7Parent, c7Child] }

def c7Supply : Nat → String := fun n => "new" ++ toString n

/-- Witness for C7 at a concrete container whose buffer holds a parent and its
child. -/
theorem pasteSelectedItems_skips_nested_duplicates_witness :
    ((pasteSelectedItems c7Supply c7Ctr).scheme.items.map Item.id
        = c7Ctr.scheme.items.map Item.id ++ [c7Supply 0]) ∧
    (((pasteSelectedItems c7Supply c7Ctr).scheme.items.map stripMetaItem).getLast?
        = some (stripMetaItem (placedClone c7Supply c7Parent))) ∧
    (coreItem (copyItemAux c7Supply 0 c7Parent).1 = coreItem c7Parent) ∧
    ((flattenItem (copyItemAux c7Supply 0 c7Parent).1).map Item.id
        = (List.range' 0 (itemSize c7Parent)).map c7Supply) ∧
    (∀ x ∈ flattenItem (copyItemAux c7Supply 0 c7Parent).1, x.connectors = []) :=
  pasteSelectedItems_skips_nested_duplicates c7Supply c7Ctr c7Parent c7Child rfl
    (by simp [c7Child, c7Parent, Item.meta, Item.id])

end Schemio
